import Mathlib

/-!
Verification of the sky-tile indexing and coordinate-centered mosaic
assembly engine of the dss repository.

The development shallowly embeds the C++ source:
pure functions become Lean functions; `double` arithmetic is idealised as
exact rational (`ℚ`) arithmetic where the code only performs field
operations, and as real (`ℝ`) arithmetic where transcendental functions
(`cos`, `sin`, `sqrt`, `atan2`) occur; Qt string primitives
(`QString::trimmed`, `QString::split`, `QString::toDouble`,
`QRegularExpression::match` for the two fixed sexagesimal patterns) are
embedded by their documented semantics on `List Char`.
-/

namespace Dss

/-! ## Qt string primitives, embedded by their documented semantics -/

/-- Embedding of `QString::trimmed()`: remove leading and trailing
whitespace characters. -/
def trimChars (cs : List Char) : List Char :=
  ((cs.dropWhile Char.isWhitespace).reverse.dropWhile Char.isWhitespace).reverse

/-- Embedding of `QString::split(QChar)` with Qt's default
keep-empty-parts behaviour. -/
def splitOnChar (c : Char) : List Char → List (List Char)
  | [] => [[]]
  | a :: r =>
    let ps := splitOnChar c r
    if a = c then [] :: ps
    else (a :: ps.headD []) :: ps.tail

/-- Embedding of `QString::startsWith(QChar)`. -/
def startsWithChar (c : Char) (cs : List Char) : Bool :=
  match cs with
  | a :: _ => a = c
  | [] => false

/-- Numeric value of a digit run, most significant digit first. -/
def digitsVal (ds : List Char) : ℕ :=
  ds.foldl (fun a c => 10 * a + (c.toNat - 48)) 0

/-- Value of a fractional digit run (the digits after a decimal point). -/
def fracVal (ds : List Char) : ℚ :=
  (digitsVal ds : ℚ) / 10 ^ ds.length

/-- Parse an unsigned mantissa `digits*` or `digits* . digits*` holding at
least one digit, returning its value and the unconsumed suffix.
Models the mantissa syntax accepted by `strtod`, which underlies
`QString::toDouble`. -/
def parseUnsigned (cs : List Char) : Option (ℚ × List Char) :=
  let I := cs.takeWhile Char.isDigit
  let r := cs.dropWhile Char.isDigit
  if r.headD ' ' = '.' then
    let F := r.tail.takeWhile Char.isDigit
    let r3 := r.tail.dropWhile Char.isDigit
    if I.isEmpty && F.isEmpty then none
    else some ((digitsVal I : ℚ) + fracVal F, r3)
  else if I.isEmpty then none else some ((digitsVal I : ℚ), r)

/-- Parse an optional exponent part `e[+-]?digits+`, returning the signed
exponent and the unconsumed suffix. -/
def parseExpPart (cs : List Char) : Option (ℤ × List Char) :=
  if cs.headD ' ' = 'e' ∨ cs.headD ' ' = 'E' then
    let r := cs.tail
    let sr : ℤ × List Char :=
      if r.headD ' ' = '+' then (1, r.tail)
      else if r.headD ' ' = '-' then (-1, r.tail)
      else (1, r)
    let D := sr.2.takeWhile Char.isDigit
    let r3 := sr.2.dropWhile Char.isDigit
    if D.isEmpty then none else some (sr.1 * (digitsVal D : ℤ), r3)
  else none

/-- Consume an optional leading sign, returning the sign factor and the
rest of the string. -/
def signSplit (cs : List Char) : ℚ × List Char :=
  if cs.headD ' ' = '+' then (1, cs.tail)
  else if cs.headD ' ' = '-' then (-1, cs.tail)
  else (1, cs)

/-- Embedding of `QString::toDouble()`: parse the entire (whitespace
trimmed) string as a signed decimal number, returning `0` when the string
is not a valid number in its entirety. The `double` value is idealised as
an exact rational. -/
def toDoubleChars (cs0 : List Char) : ℚ :=
  let sgncs := signSplit (trimChars cs0)
  match parseUnsigned sgncs.2 with
  | none => 0
  | some vr =>
    match parseExpPart vr.2 with
    | some er =>
      match er.2 with
      | [] => sgncs.1 * vr.1 * 10 ^ er.1
      | _ :: _ => 0
    | none =>
      match vr.2 with
      | [] => sgncs.1 * vr.1
      | _ :: _ => 0

/-! ## The sexagesimal regular expressions

`SimpleCoordinateParser` matches the patterns
`(\d+(\.\d+)?)h((\d+(\.\d+)?)m)?((\d+(\.\d+)?)s)?` (unit char `h` for RA,
`d` for Dec).  The pattern is deterministic: a greedy digit run followed by
an optional fraction can never be extended to a match by backtracking,
because the character after the consumed run is neither a digit nor the
required unit letter.  `QRegularExpression::match` finds the leftmost
match; empty optional groups capture the value `0`. -/

/-- Match `\d+(\.\d+)?` at the head of the input. -/
def matchNum (cs : List Char) : Option (ℚ × List Char) :=
  let I := cs.takeWhile Char.isDigit
  let r := cs.dropWhile Char.isDigit
  if I.isEmpty then none
  else if r.headD ' ' = '.' then
    let F := r.tail.takeWhile Char.isDigit
    if F.isEmpty then some ((digitsVal I : ℚ), r)
    else some ((digitsVal I : ℚ) + fracVal F, r.tail.dropWhile Char.isDigit)
  else some ((digitsVal I : ℚ), r)

/-- Match `\d+(\.\d+)?u` for a unit letter `u` at the head of the input.
The unit letters in use are `h`, `d`, `m`, `s`, never a space, so testing
the head with a space default is exact. -/
def matchUnitNum (u : Char) (cs : List Char) : Option (ℚ × List Char) :=
  match matchNum cs with
  | some vr => if vr.2.headD ' ' = u then some (vr.1, vr.2.tail) else none
  | none => none

/-- Attempt the full sexagesimal pattern at the current position: a
mandatory `numU1` part followed by optional `numM` and `numS` parts;
absent optional groups yield `0`. -/
def matchSexa (u1 : Char) (cs : List Char) : Option (ℚ × ℚ × ℚ) :=
  match matchUnitNum u1 cs with
  | none => none
  | some (h, r1) =>
    let mr : ℚ × List Char :=
      match matchUnitNum 'm' r1 with
      | some (m, r) => (m, r)
      | none => (0, r1)
    let sv : ℚ :=
      match matchUnitNum 's' mr.2 with
      | some (s, _) => s
      | none => 0
    some (h, mr.1, sv)

/-- Leftmost match of the sexagesimal pattern anywhere in the string,
as performed by `QRegularExpression::match`. -/
def findSexa (u1 : Char) : List Char → Option (ℚ × ℚ × ℚ)
  | [] => none
  | c :: cs =>
    match matchSexa u1 (c :: cs) with
    | some r => some r
    | none => findSexa u1 cs

end Dss

namespace SimpleCoordinateParser

open Dss

/-- Result of `SimpleCoordinateParser::parseCoordinates`; the `double`
fields `ra_deg` and `dec_deg` are idealised as exact rationals. -/
structure ParsedPosition where
  ra_deg : ℚ
  dec_deg : ℚ
  name : String
  description : String
deriving DecidableEq, Repr

/-- The fall-through of `parseRA` after the colon branch: the `h m s`
regular-expression branch and the final plain-number branch of
`SimpleCoordinateParser::parseRA`. -/
def parseRArest (clean : List Char) : ℚ :=
  if 'h' ∈ clean then
    match findSexa 'h' clean with
    | some (hours, minutes, seconds) => (hours + minutes / 60 + seconds / 3600) * 15
    | none =>
      let degrees := toDoubleChars clean
      if degrees ≤ 24 then degrees * 15 else degrees
  else
    let degrees := toDoubleChars clean
    if degrees ≤ 24 then degrees * 15 else degrees

/-- Embedding of `SimpleCoordinateParser::parseRA`
(src/EnhancedMosaicCreator.h lines 50 to 79). -/
def parseRA (text : String) : ℚ :=
  let clean := trimChars text.data
  if ':' ∈ clean then
    let parts := splitOnChar ':' clean
    if 2 ≤ parts.length then
      let hours := toDoubleChars (parts.getD 0 [])
      let minutes := toDoubleChars (parts.getD 1 [])
      let seconds := if 2 < parts.length then toDoubleChars (parts.getD 2 []) else 0
      (hours + minutes / 60 + seconds / 3600) * 15
    else parseRArest clean
  else parseRArest clean

/-- The sign stripping at the head of `SimpleCoordinateParser::parseDec`:
record a leading minus sign, then drop one leading `-` and one leading
`+`. -/
def parseDecClean (cs0 : List Char) : Bool × List Char :=
  let negative := startsWithChar '-' cs0
  let cs1 := if negative then cs0.tail else cs0
  let cs2 := if startsWithChar '+' cs1 then cs1.tail else cs1
  (negative, cs2)

/-- The fall-through of `parseDec` after the colon branch: the `d m s`
regular-expression branch and the final plain-number branch of
`SimpleCoordinateParser::parseDec`. -/
def parseDecRest (negative : Bool) (clean : List Char) : ℚ :=
  if 'd' ∈ clean then
    match findSexa 'd' clean with
    | some (degrees, minutes, seconds) =>
      let result := degrees + minutes / 60 + seconds / 3600
      if negative then -result else result
    | none =>
      let result := toDoubleChars clean
      if negative then -result else result
  else
    let result := toDoubleChars clean
    if negative then -result else result

/-- Embedding of `SimpleCoordinateParser::parseDec`
(src/EnhancedMosaicCreator.h lines 81 to 112). -/
def parseDec (text : String) : ℚ :=
  let nc := parseDecClean (trimChars text.data)
  let negative := nc.1
  let clean := nc.2
  if ':' ∈ clean then
    let parts := splitOnChar ':' clean
    if 2 ≤ parts.length then
      let degrees := toDoubleChars (parts.getD 0 [])
      let minutes := toDoubleChars (parts.getD 1 [])
      let seconds := if 2 < parts.length then toDoubleChars (parts.getD 2 []) else 0
      let result := degrees + minutes / 60 + seconds / 3600
      if negative then -result else result
    else parseDecRest negative clean
  else parseDecRest negative clean

/-- Embedding of `SimpleCoordinateParser::parseCoordinates`
(src/EnhancedMosaicCreator.h lines 39 to 47). -/
def parseCoordinates (raText decText : String) (name : String) : ParsedPosition :=
  { name := name
    description := "User-defined coordinates"
    ra_deg := parseRA raText
    dec_deg := parseDec decText }

end SimpleCoordinateParser

namespace Dss

/-! ## Lemmas about the string primitives -/

/-- A string with no digit character: the property used to express that
no number can be read from any part of the input. -/
def NoDigit (cs : List Char) : Prop := ∀ c ∈ cs, c.isDigit = false

instance (cs : List Char) : Decidable (NoDigit cs) :=
  inferInstanceAs (Decidable (∀ c ∈ cs, c.isDigit = false))

theorem noDigit_of_sublist {cs ds : List Char} (h : ds.Sublist cs) :
    NoDigit cs → NoDigit ds :=
  fun hn c hc => hn c (h.mem hc)

theorem noDigit_trimChars {cs : List Char} (h : NoDigit cs) :
    NoDigit (trimChars cs) := by
  intro c hc
  apply h
  unfold trimChars at hc
  rw [List.mem_reverse] at hc
  have hc2 := (List.dropWhile_sublist (l := (cs.dropWhile Char.isWhitespace).reverse)
    (p := Char.isWhitespace)).mem hc
  rw [List.mem_reverse] at hc2
  exact (List.dropWhile_sublist (l := cs) (p := Char.isWhitespace)).mem hc2

theorem noDigit_tail {cs : List Char} (h : NoDigit cs) : NoDigit cs.tail :=
  noDigit_of_sublist (List.tail_sublist cs) h

theorem takeWhile_isDigit_eq_nil {cs : List Char} (h : NoDigit cs) :
    cs.takeWhile Char.isDigit = [] := by
  cases cs with
  | nil => rfl
  | cons a r =>
    simp only [List.takeWhile_cons]
    rw [h a (List.mem_cons_self a r)]
    simp

theorem dropWhile_isDigit_eq_self {cs : List Char} (h : NoDigit cs) :
    cs.dropWhile Char.isDigit = cs := by
  cases cs with
  | nil => rfl
  | cons a r =>
    simp only [List.dropWhile_cons]
    rw [h a (List.mem_cons_self a r)]
    simp

theorem parseUnsigned_eq_none {cs : List Char} (h : NoDigit cs) :
    parseUnsigned cs = none := by
  simp only [parseUnsigned]
  rw [takeWhile_isDigit_eq_nil h, dropWhile_isDigit_eq_self h,
    takeWhile_isDigit_eq_nil (noDigit_tail h)]
  simp

theorem noDigit_signSplit {cs : List Char} (h : NoDigit cs) :
    NoDigit (signSplit cs).2 := by
  simp only [signSplit]
  split
  · exact noDigit_tail h
  · split
    · exact noDigit_tail h
    · exact h

theorem toDoubleChars_eq_zero {cs : List Char} (h : NoDigit cs) :
    toDoubleChars cs = 0 := by
  simp only [toDoubleChars]
  rw [parseUnsigned_eq_none (noDigit_signSplit (noDigit_trimChars h))]

theorem splitOnChar_ne_nil (c : Char) (cs : List Char) : splitOnChar c cs ≠ [] := by
  cases cs with
  | nil => simp [splitOnChar]
  | cons a r =>
    unfold splitOnChar
    split <;> simp

theorem mem_of_mem_splitOnChar {c : Char} {cs p : List Char} {a : Char}
    (hp : p ∈ splitOnChar c cs) (ha : a ∈ p) : a ∈ cs := by
  induction cs generalizing p with
  | nil =>
    simp only [splitOnChar, List.mem_singleton] at hp
    subst hp
    exact absurd ha (List.not_mem_nil a)
  | cons b r ih =>
    simp only [splitOnChar] at hp
    by_cases hbc : b = c
    · rw [if_pos hbc] at hp
      rcases List.mem_cons.mp hp with h1 | h2
      · subst h1; exact absurd ha (List.not_mem_nil a)
      · exact List.mem_cons_of_mem b (ih h2 ha)
    · rw [if_neg hbc] at hp
      obtain ⟨q, qs, hsp⟩ := List.exists_cons_of_ne_nil (splitOnChar_ne_nil c r)
      rw [hsp] at hp
      simp only [List.headD_cons, List.tail_cons] at hp
      have hq : q ∈ splitOnChar c r := by
        rw [hsp]; exact List.mem_cons_self q qs
      rcases List.mem_cons.mp hp with h1 | h2
      · subst h1
        rcases List.mem_cons.mp ha with h3 | h4
        · subst h3; exact List.mem_cons_self a r
        · exact List.mem_cons_of_mem b (ih hq h4)
      · have hpq : p ∈ splitOnChar c r := by
          rw [hsp]; exact List.mem_cons_of_mem q h2
        exact List.mem_cons_of_mem b (ih hpq ha)

theorem noDigit_splitOnChar {c : Char} {cs p : List Char} (h : NoDigit cs)
    (hp : p ∈ splitOnChar c cs) : NoDigit p :=
  fun a ha => h a (mem_of_mem_splitOnChar hp ha)

theorem matchNum_eq_none {cs : List Char} (h : NoDigit cs) : matchNum cs = none := by
  simp only [matchNum]
  rw [takeWhile_isDigit_eq_nil h]
  simp

theorem matchUnitNum_eq_none {u : Char} {cs : List Char} (h : NoDigit cs) :
    matchUnitNum u cs = none := by
  simp only [matchUnitNum]
  rw [matchNum_eq_none h]

theorem matchSexa_eq_none {u1 : Char} {cs : List Char} (h : NoDigit cs) :
    matchSexa u1 cs = none := by
  simp only [matchSexa]
  rw [matchUnitNum_eq_none h]

theorem findSexa_eq_none {u1 : Char} {cs : List Char} (h : NoDigit cs) :
    findSexa u1 cs = none := by
  induction cs with
  | nil => rfl
  | cons a r ih =>
    rw [findSexa, matchSexa_eq_none h]
    exact ih (noDigit_of_sublist (List.sublist_cons_self a r) h)

theorem noDigit_getD_splitOnChar {c : Char} {cs : List Char} (h : NoDigit cs)
    (i : ℕ) : NoDigit ((splitOnChar c cs).getD i []) := by
  by_cases hi : i < (splitOnChar c cs).length
  · rw [List.getD_eq_getElem _ _ hi]
    exact noDigit_splitOnChar h (List.getElem_mem hi)
  · rw [List.getD_eq_default _ _ (Nat.le_of_not_lt hi)]
    intro a ha
    exact absurd ha (List.not_mem_nil a)

end Dss

namespace SimpleCoordinateParser

open Dss

theorem parseRA_of_noDigit {text : String} (h : NoDigit text.data) :
    parseRA text = 0 := by
  have hc : NoDigit (trimChars text.data) := noDigit_trimChars h
  have hrest : parseRArest (trimChars text.data) = 0 := by
    simp only [parseRArest]
    rw [findSexa_eq_none hc, toDoubleChars_eq_zero hc]
    norm_num
  simp only [parseRA]
  split
  · split
    · rw [toDoubleChars_eq_zero (noDigit_getD_splitOnChar hc 0),
        toDoubleChars_eq_zero (noDigit_getD_splitOnChar hc 1)]
      split
      · rw [toDoubleChars_eq_zero (noDigit_getD_splitOnChar hc 2)]; norm_num
      · norm_num
    · exact hrest
  · exact hrest

theorem parseDec_of_noDigit {text : String} (h : NoDigit text.data) :
    parseDec text = 0 := by
  have hc0 : NoDigit (trimChars text.data) := noDigit_trimChars h
  have hc : NoDigit (parseDecClean (trimChars text.data)).2 := by
    simp only [parseDecClean]
    split
    · split
      · exact noDigit_tail (noDigit_tail hc0)
      · exact noDigit_tail hc0
    · split
      · exact noDigit_tail hc0
      · exact hc0
  have hrest : ∀ b : Bool, parseDecRest b (parseDecClean (trimChars text.data)).2 = 0 := by
    intro b
    simp only [parseDecRest]
    rw [findSexa_eq_none hc, toDoubleChars_eq_zero hc]
    cases b <;> simp
  simp only [parseDec]
  split
  · split
    · rw [toDoubleChars_eq_zero (noDigit_getD_splitOnChar hc 0),
        toDoubleChars_eq_zero (noDigit_getD_splitOnChar hc 1),
        toDoubleChars_eq_zero (noDigit_getD_splitOnChar hc 2)]
      split <;> split <;> norm_num
    · exact hrest _
  · exact hrest _

/-- Claim C6: for an RA input string whose cleaned text contains no colon
separator and no `h` unit marker, `parseRA` returns the numeric value
times 15 when that value is at most 24 (hours interpreted as degrees) and
the value unchanged otherwise. -/
theorem claim_C6_parseRA_hours_rule (text : String)
    (h1 : ':' ∉ trimChars text.data) (h2 : 'h' ∉ trimChars text.data) :
    parseRA text =
      if toDoubleChars (trimChars text.data) ≤ 24
      then toDoubleChars (trimChars text.data) * 15
      else toDoubleChars (trimChars text.data) := by
  simp only [parseRA, parseRArest]
  rw [if_neg h1, if_neg h2]

/-- Witness for claim C6 at the concrete input "400": the value 400
exceeds 24, so it is returned unchanged as degrees. -/
theorem claim_C6_witness : parseRA "400" = 400 := by
  have h := claim_C6_parseRA_hours_rule "400" (by decide) (by decide)
  rw [h, show toDoubleChars (trimChars "400".data) = 400 from by
    with_unfolding_all rfl]
  norm_num

/-- Claim C7: `parseCoordinates` is a total function returning exactly the
record of the two component parses (no exception or hard failure escapes
to the caller), and a component string from which no number can be read
(it contains no digit at all) yields the value 0 for that component. -/
theorem claim_C7_parse_total_fallback (raText decText name : String) :
    parseCoordinates raText decText name =
      { ra_deg := parseRA raText, dec_deg := parseDec decText,
        name := name, description := "User-defined coordinates" } ∧
    (NoDigit raText.data → (parseCoordinates raText decText name).ra_deg = 0) ∧
    (NoDigit decText.data → (parseCoordinates raText decText name).dec_deg = 0) :=
  ⟨rfl, fun h => parseRA_of_noDigit h, fun h => parseDec_of_noDigit h⟩

/-- Witness for claim C7 at digit-free inputs: both components parse
to 0. -/
theorem claim_C7_witness :
    (parseCoordinates "abc" "xyz" "T").ra_deg = 0 ∧
    (parseCoordinates "abc" "xyz" "T").dec_deg = 0 :=
  ⟨(claim_C7_parse_total_fallback "abc" "xyz" "T").2.1 (by decide),
   (claim_C7_parse_total_fallback "abc" "xyz" "T").2.2 (by decide)⟩

/-- Claim C5 counterexample: the parser performs no range normalisation.
The RA input "400" yields ra_deg = 400, outside [0,360), and the Dec
input "95" yields dec_deg = 95, outside [-90,90]. -/
theorem claim_C5_counterexample :
    (parseCoordinates "400" "95" "X").ra_deg = 400 ∧
    ¬ ((parseCoordinates "400" "95" "X").ra_deg < 360) ∧
    (parseCoordinates "400" "95" "X").dec_deg = 95 ∧
    ¬ ((parseCoordinates "400" "95" "X").dec_deg ≤ 90) := by
  have hra : (parseCoordinates "400" "95" "X").ra_deg = 400 := by
    with_unfolding_all rfl
  have hdec : (parseCoordinates "400" "95" "X").dec_deg = 95 := by
    with_unfolding_all rfl
  refine ⟨hra, ?_, hdec, ?_⟩
  · rw [hra]; norm_num
  · rw [hdec]; norm_num

/-- Claim C5 amended: a SkyPosition created by the parser satisfies
ra_deg ∈ [0,360) and dec_deg ∈ [-90,90] provided the cleaned RA text is a
plain decimal (no colon, no `h`) with value in [0,24) and the cleaned,
sign-stripped Dec text is a plain decimal (no colon, no `d`) with value
in [0,90]; for arbitrary inputs the ranges are not enforced (see the
counterexample). -/
theorem claim_C5_amended_parse_ranges (raText decText name : String)
    (hra1 : ':' ∉ trimChars raText.data) (hra2 : 'h' ∉ trimChars raText.data)
    (hra3 : 0 ≤ toDoubleChars (trimChars raText.data))
    (hra4 : toDoubleChars (trimChars raText.data) < 24)
    (hdec1 : ':' ∉ (parseDecClean (trimChars decText.data)).2)
    (hdec2 : 'd' ∉ (parseDecClean (trimChars decText.data)).2)
    (hdec3 : 0 ≤ toDoubleChars (parseDecClean (trimChars decText.data)).2)
    (hdec4 : toDoubleChars (parseDecClean (trimChars decText.data)).2 ≤ 90) :
    0 ≤ (parseCoordinates raText decText name).ra_deg ∧
    (parseCoordinates raText decText name).ra_deg < 360 ∧
    -90 ≤ (parseCoordinates raText decText name).dec_deg ∧
    (parseCoordinates raText decText name).dec_deg ≤ 90 := by
  have hra : (parseCoordinates raText decText name).ra_deg =
      toDoubleChars (trimChars raText.data) * 15 := by
    show parseRA raText = _
    simp only [parseRA, parseRArest]
    rw [if_neg hra1, if_neg hra2, if_pos (le_of_lt hra4)]
  have hdec : (parseCoordinates raText decText name).dec_deg =
      (if (parseDecClean (trimChars decText.data)).1 = true
       then -(toDoubleChars (parseDecClean (trimChars decText.data)).2)
       else toDoubleChars (parseDecClean (trimChars decText.data)).2) := by
    show parseDec decText = _
    simp only [parseDec, parseDecRest]
    rw [if_neg hdec1, if_neg hdec2]
  rw [hra, hdec]
  refine ⟨mul_nonneg hra3 (by norm_num), by linarith, ?_, ?_⟩
  · split <;> linarith
  · split <;> linarith

/-- Witness for the amended claim C5 at the concrete inputs "12" and
"-45": the parsed position is inside the advertised ranges. -/
theorem claim_C5_amended_witness :
    0 ≤ (parseCoordinates "12" "-45" "W").ra_deg ∧
    (parseCoordinates "12" "-45" "W").ra_deg < 360 ∧
    -90 ≤ (parseCoordinates "12" "-45" "W").dec_deg ∧
    (parseCoordinates "12" "-45" "W").dec_deg ≤ 90 :=
  claim_C5_amended_parse_ranges "12" "-45" "W"
    (by decide) (by decide)
    (by rw [show toDoubleChars (trimChars "12".data) = 12 from by
          with_unfolding_all rfl]; norm_num)
    (by rw [show toDoubleChars (trimChars "12".data) = 12 from by
          with_unfolding_all rfl]; norm_num)
    (by decide) (by decide)
    (by rw [show toDoubleChars (parseDecClean (trimChars "-45".data)).2 = 45 from by
          with_unfolding_all rfl]; norm_num)
    (by rw [show toDoubleChars (parseDecClean (trimChars "-45".data)).2 = 45 from by
          with_unfolding_all rfl]; norm_num)

end SimpleCoordinateParser

namespace ProperHipsClient

/-! ## The 3x3 grid builder (src/ProperHipsClient.cpp) -/

/-- The fixed native-index-to-compass-label table of
`getDirectionalNeighbors` (src/ProperHipsClient.cpp line 67). -/
def directions : List String := ["SW", "W", "NW", "N", "NE", "E", "SE", "S"]

/-- Model of `QMap<QString, long long>` as an association list;
`insert` replaces any earlier binding of the same key. -/
def qmapInsert (m : List (String × ℤ)) (k : String) (v : ℤ) : List (String × ℤ) :=
  m.filter (fun p => p.1 ≠ k) ++ [(k, v)]

/-- Model of `QMap::value` with a default value. -/
def qmapValue (m : List (String × ℤ)) (k : String) (deflt : ℤ) : ℤ :=
  match m.find? (fun p => p.1 = k) with
  | some p => p.2
  | none => deflt

/-- Model of `QMap::contains`. -/
def qmapContains (m : List (String × ℤ)) (k : String) : Bool :=
  (m.find? (fun p => p.1 = k)).isSome

/-- Embedding of `ProperHipsClient::getDirectionalNeighbors`
(src/ProperHipsClient.cpp lines 55 to 102).  The native eight-neighbor
query `healpix.neighbors` belongs to the external HEALPix library and is
abstracted as the oracle parameter, so the theorems below hold for every
possible neighbor array.  Entry i of the array is inserted under compass
label `directions[i]` whenever it is nonnegative; a negative entry (edge
of sky coverage) is skipped. -/
def getDirectionalNeighbors (neighborsOracle : ℤ → ℕ → Fin 8 → ℤ)
    (centerPixel : ℤ) (order : ℕ) : List (String × ℤ) :=
  let neighborArray := neighborsOracle centerPixel order
  (List.finRange 8).foldl
    (fun m i =>
      if 0 ≤ neighborArray i then
        qmapInsert m (directions.getD i.val "") (neighborArray i)
      else m)
    []

/-- Embedding of `ProperHipsClient::createProper3x3Grid`
(src/ProperHipsClient.cpp lines 105 to 155): every direction missing from
the neighbor map falls back to the center pixel. -/
def createProper3x3Grid (neighborsOracle : ℤ → ℕ → Fin 8 → ℤ)
    (centerPixel : ℤ) (order : ℕ) : List (List ℤ) :=
  let neighbors := getDirectionalNeighbors neighborsOracle centerPixel order
  let nw := qmapValue neighbors "NW" centerPixel
  let nn := qmapValue neighbors "N" centerPixel
  let neb := qmapValue neighbors "NE" centerPixel
  let w := qmapValue neighbors "W" centerPixel
  let e := qmapValue neighbors "E" centerPixel
  let sw := qmapValue neighbors "SW" centerPixel
  let s := qmapValue neighbors "S" centerPixel
  let se := qmapValue neighbors "SE" centerPixel
  [[nw, nn, neb], [w, centerPixel, e], [sw, s, se]]

/-- Access to one grid cell, row-major with row 0 the north row. -/
def gridCell (g : List (List ℤ)) (row col : ℕ) : ℤ :=
  (g.getD row []).getD col 0

theorem qmapValue_eq_default {m : List (String × ℤ)} {k : String} {d : ℤ}
    (h : qmapContains m k = false) : qmapValue m k d = d := by
  unfold qmapContains at h
  unfold qmapValue
  cases hf : m.find? (fun p => p.1 = k) with
  | none => rfl
  | some p => rw [hf] at h; simp at h

/-- Claim C1: for every neighbor array the external library can return
(hence for every center pixel and every order 1..12), the 3x3 grid has
the center pixel at cell [1][1], and every cell whose compass direction
is absent from the directional-neighbor map equals the center pixel — a
reused center pixel, never a sentinel or null value. -/
theorem claim_C1_grid_center_invariant (neighborsOracle : ℤ → ℕ → Fin 8 → ℤ)
    (centerPixel : ℤ) (order : ℕ) (h1 : 1 ≤ order) (h2 : order ≤ 12) :
    gridCell (createProper3x3Grid neighborsOracle centerPixel order) 1 1 = centerPixel ∧
    (qmapContains (getDirectionalNeighbors neighborsOracle centerPixel order) "NW" = false →
      gridCell (createProper3x3Grid neighborsOracle centerPixel order) 0 0 = centerPixel) ∧
    (qmapContains (getDirectionalNeighbors neighborsOracle centerPixel order) "N" = false →
      gridCell (createProper3x3Grid neighborsOracle centerPixel order) 0 1 = centerPixel) ∧
    (qmapContains (getDirectionalNeighbors neighborsOracle centerPixel order) "NE" = false →
      gridCell (createProper3x3Grid neighborsOracle centerPixel order) 0 2 = centerPixel) ∧
    (qmapContains (getDirectionalNeighbors neighborsOracle centerPixel order) "W" = false →
      gridCell (createProper3x3Grid neighborsOracle centerPixel order) 1 0 = centerPixel) ∧
    (qmapContains (getDirectionalNeighbors neighborsOracle centerPixel order) "E" = false →
      gridCell (createProper3x3Grid neighborsOracle centerPixel order) 1 2 = centerPixel) ∧
    (qmapContains (getDirectionalNeighbors neighborsOracle centerPixel order) "SW" = false →
      gridCell (createProper3x3Grid neighborsOracle centerPixel order) 2 0 = centerPixel) ∧
    (qmapContains (getDirectionalNeighbors neighborsOracle centerPixel order) "S" = false →
      gridCell (createProper3x3Grid neighborsOracle centerPixel order) 2 1 = centerPixel) ∧
    (qmapContains (getDirectionalNeighbors neighborsOracle centerPixel order) "SE" = false →
      gridCell (createProper3x3Grid neighborsOracle centerPixel order) 2 2 = centerPixel) :=
  ⟨rfl,
   fun h => qmapValue_eq_default h,
   fun h => qmapValue_eq_default h,
   fun h => qmapValue_eq_default h,
   fun h => qmapValue_eq_default h,
   fun h => qmapValue_eq_default h,
   fun h => qmapValue_eq_default h,
   fun h => qmapValue_eq_default h,
   fun h => qmapValue_eq_default h⟩

/-- Witness for claim C1: with an oracle reporting no valid neighbor at
all (every entry -1), every grid cell is the center pixel 7 at order 8. -/
theorem claim_C1_witness :
    gridCell (createProper3x3Grid (fun _ _ _ => -1) 7 8) 1 1 = 7 ∧
    (qmapContains (getDirectionalNeighbors (fun _ _ _ => -1) 7 8) "NW" = false ∧
     gridCell (createProper3x3Grid (fun _ _ _ => -1) 7 8) 0 0 = 7) := by
  have h := claim_C1_grid_center_invariant (fun _ _ _ => -1) 7 8 (by decide) (by decide)
  exact ⟨h.1, by decide, h.2.1 (by decide)⟩

end ProperHipsClient

namespace EnhancedMosaicCreator

/-! ## The crop-to-center rectangle (src/EnhancedMosaicCreator.cpp) -/

/-- Embedding of `EnhancedMosaicCreator::cropMosaicToCenter`
(src/EnhancedMosaicCreator.cpp lines 346 to 383), returning the crop
rectangle as (x, y, size); `QImage::copy` then extracts exactly this
rectangle.  C++ `int` division truncates toward zero; the crop size in
play is nonnegative, where truncating and Euclidean division agree. -/
def cropMosaicToCenter (width height tx ty : ℤ) : ℤ × ℤ × ℤ :=
  let cropSize := min 1200 (min width height)
  let cropX0 := tx - cropSize / 2
  let cropY0 := ty - cropSize / 2
  let cropX1 := if cropX0 < 0 then 0 else cropX0
  let cropY1 := if cropY0 < 0 then 0 else cropY0
  let cropX := if cropX1 + cropSize > width then width - cropSize else cropX1
  let cropY := if cropY1 + cropSize > height then height - cropSize else cropY1
  (cropX, cropY, cropSize)

/-- Claim C2: for every raw mosaic size and every target pixel inside it,
the crop rectangle lies fully inside [0,width) x [0,height) and its side
length is exactly min(1200, min(width, height)); the canvas is never
scaled or padded. -/
theorem claim_C2_crop_containment (width height tx ty : ℤ)
    (hx0 : 0 ≤ tx) (hx1 : tx < width) (hy0 : 0 ≤ ty) (hy1 : ty < height) :
    0 ≤ (cropMosaicToCenter width height tx ty).1 ∧
    (cropMosaicToCenter width height tx ty).1 +
      (cropMosaicToCenter width height tx ty).2.2 ≤ width ∧
    0 ≤ (cropMosaicToCenter width height tx ty).2.1 ∧
    (cropMosaicToCenter width height tx ty).2.1 +
      (cropMosaicToCenter width height tx ty).2.2 ≤ height ∧
    (cropMosaicToCenter width height tx ty).2.2 = min 1200 (min width height) := by
  refine ⟨?_, ?_, ?_, ?_, rfl⟩ <;>
    (simp only [cropMosaicToCenter, min_def]; split_ifs <;> omega)

/-- Witness for claim C2 on the 1536x1536 raw mosaic with the target at
the top-left corner: the 1200-pixel crop window is slid flush with the
edges. -/
theorem claim_C2_witness :
    0 ≤ (cropMosaicToCenter 1536 1536 0 0).1 ∧
    (cropMosaicToCenter 1536 1536 0 0).1 +
      (cropMosaicToCenter 1536 1536 0 0).2.2 ≤ 1536 ∧
    0 ≤ (cropMosaicToCenter 1536 1536 0 0).2.1 ∧
    (cropMosaicToCenter 1536 1536 0 0).2.1 +
      (cropMosaicToCenter 1536 1536 0 0).2.2 ≤ 1536 ∧
    (cropMosaicToCenter 1536 1536 0 0).2.2 = min 1200 (min 1536 1536) :=
  claim_C2_crop_containment 1536 1536 0 0 (by decide) (by decide) (by decide) (by decide)

end EnhancedMosaicCreator

namespace Dss

/-! ## Sky positions and libm functions over idealised reals -/

/-- The `SkyPosition` value type declared in ProperHipsClient.h (header
not under the sources; fields evidenced by every use site and by the
spec data model): the `double` fields are idealised as reals. -/
structure SkyPosition where
  ra_deg : ℝ
  dec_deg : ℝ
  name : String
  description : String

/-- The `atan2` function of the C math library, written as the usual
piecewise arctangent. -/
noncomputable def atan2 (y x : ℝ) : ℝ :=
  if 0 < x then Real.arctan (y / x)
  else if x < 0 then
    (if 0 ≤ y then Real.arctan (y / x) + Real.pi else Real.arctan (y / x) - Real.pi)
  else if 0 < y then Real.pi / 2
  else if y < 0 then -(Real.pi / 2)
  else 0

/-- The C library `round` (round half away from zero) followed by the
truncating int cast of its already-integral result. -/
noncomputable def cround (x : ℝ) : ℤ :=
  if 0 ≤ x then ⌊x + 1 / 2⌋ else -⌊-x + 1 / 2⌋

theorem cround_zero : cround 0 = 0 := by
  unfold cround
  rw [if_pos (le_refl (0 : ℝ))]
  have h : (0 : ℝ) + 1 / 2 = 1 / 2 := by norm_num
  rw [h, Int.floor_eq_zero_iff]
  constructor <;> norm_num

end Dss

namespace EnhancedMosaicCreator

open Dss

/-! ## Target localisation (src/EnhancedMosaicCreator.cpp) -/

/-- Embedding of `EnhancedMosaicCreator::calculateAngularDistance`
(src/EnhancedMosaicCreator.cpp lines 410 to 426): haversine great-circle
distance, returned in radians. -/
noncomputable def calculateAngularDistance (pos1 pos2 : SkyPosition) : ℝ :=
  let ra1 := pos1.ra_deg * Real.pi / 180
  let dec1 := pos1.dec_deg * Real.pi / 180
  let ra2 := pos2.ra_deg * Real.pi / 180
  let dec2 := pos2.dec_deg * Real.pi / 180
  let dra := ra2 - ra1
  let ddec := dec2 - dec1
  let a := Real.sin (ddec / 2) * Real.sin (ddec / 2) +
    Real.cos dec1 * Real.cos dec2 * Real.sin (dra / 2) * Real.sin (dra / 2)
  2 * atan2 (Real.sqrt a) (Real.sqrt (1 - a))

/-- Embedding of `EnhancedMosaicCreator::SimpleTile`
(src/EnhancedMosaicCreator.h lines 143 to 151); the QImage raster is
abstracted to its isNull flag. -/
structure SimpleTile where
  gridX : ℤ
  gridY : ℤ
  healpixPixel : ℤ
  filename : String
  url : String
  imageIsNull : Bool
  downloaded : Bool
  skyCoordinates : SkyPosition

/-- The containing-tile search loop of `calculateTargetPixelPosition`
(src/EnhancedMosaicCreator.cpp lines 286 to 295).  The running minimum
starts at `numeric_limits<double>::max()`, modelled as `none` so that the
first tile always becomes the first candidate; later tiles replace the
candidate only on strictly smaller distance. -/
noncomputable def findContainingTile (target : SkyPosition)
    (tiles : List SimpleTile) : Option SimpleTile :=
  tiles.foldl
    (fun best tile =>
      match best with
      | none => some tile
      | some b =>
        if calculateAngularDistance target tile.skyCoordinates <
            calculateAngularDistance target b.skyCoordinates then some tile
        else some b)
    none

/-- The same running minimum once a first candidate exists. -/
noncomputable def runMin (target : SkyPosition) (b : SimpleTile)
    (l : List SimpleTile) : SimpleTile :=
  l.foldl
    (fun best tile =>
      if calculateAngularDistance target tile.skyCoordinates <
          calculateAngularDistance target best.skyCoordinates then tile else best)
    b

theorem runMin_cons (target : SkyPosition) (b a : SimpleTile) (l : List SimpleTile) :
    runMin target b (a :: l) =
      runMin target
        (if calculateAngularDistance target a.skyCoordinates <
            calculateAngularDistance target b.skyCoordinates then a else b) l := rfl

theorem foldl_option_step (target : SkyPosition) :
    ∀ (l : List SimpleTile) (b : SimpleTile),
      l.foldl
        (fun best tile =>
          match best with
          | none => some tile
          | some bb =>
            if calculateAngularDistance target tile.skyCoordinates <
                calculateAngularDistance target bb.skyCoordinates then some tile
            else some bb) (some b) = some (runMin target b l) := by
  intro l
  induction l with
  | nil => intro b; rfl
  | cons a l ih =>
    intro b
    rw [runMin_cons]
    simp only [List.foldl_cons]
    by_cases hc : calculateAngularDistance target a.skyCoordinates <
        calculateAngularDistance target b.skyCoordinates
    · rw [if_pos hc, if_pos hc]
      exact ih a
    · rw [if_neg hc, if_neg hc]
      exact ih b

theorem findContainingTile_cons (target : SkyPosition) (a : SimpleTile)
    (l : List SimpleTile) :
    findContainingTile target (a :: l) = some (runMin target a l) := by
  unfold findContainingTile
  rw [List.foldl_cons]
  exact foldl_option_step target l a

theorem runMin_mem (target : SkyPosition) :
    ∀ (l : List SimpleTile) (b : SimpleTile), runMin target b l ∈ b :: l := by
  intro l
  induction l with
  | nil => intro b; exact List.mem_cons_self _ _
  | cons a l ih =>
    intro b
    rw [runMin_cons]
    by_cases hc : calculateAngularDistance target a.skyCoordinates <
        calculateAngularDistance target b.skyCoordinates
    · rw [if_pos hc]
      rcases List.mem_cons.mp (ih a) with h | h
      · rw [h]; exact List.mem_cons_of_mem b (List.mem_cons_self a l)
      · exact List.mem_cons_of_mem b (List.mem_cons_of_mem a h)
    · rw [if_neg hc]
      rcases List.mem_cons.mp (ih b) with h | h
      · rw [h]; exact List.mem_cons_self b (a :: l)
      · exact List.mem_cons_of_mem b (List.mem_cons_of_mem a h)

theorem runMin_le (target : SkyPosition) :
    ∀ (l : List SimpleTile) (b : SimpleTile), ∀ u ∈ b :: l,
      calculateAngularDistance target (runMin target b l).skyCoordinates ≤
        calculateAngularDistance target u.skyCoordinates := by
  intro l
  induction l with
  | nil =>
    intro b u hu
    rcases List.mem_cons.mp hu with h | h
    · rw [h]; exact le_refl _
    · exact absurd h (List.not_mem_nil u)
  | cons a l ih =>
    intro b u hu
    rw [runMin_cons]
    by_cases hc : calculateAngularDistance target a.skyCoordinates <
        calculateAngularDistance target b.skyCoordinates
    · rw [if_pos hc]
      rcases List.mem_cons.mp hu with h | h
      · rw [h]
        exact le_trans (ih a a (List.mem_cons_self a l)) (le_of_lt hc)
      · rcases List.mem_cons.mp h with h2 | h2
        · rw [h2]; exact ih a a (List.mem_cons_self a l)
        · exact ih a u (List.mem_cons_of_mem a h2)
    · rw [if_neg hc]
      have hba : calculateAngularDistance target b.skyCoordinates ≤
          calculateAngularDistance target a.skyCoordinates := not_lt.mp hc
      rcases List.mem_cons.mp hu with h | h
      · rw [h]; exact ih b b (List.mem_cons_self b l)
      · rcases List.mem_cons.mp h with h2 | h2
        · rw [h2]; exact le_trans (ih b b (List.mem_cons_self b l)) hba
        · exact ih b u (List.mem_cons_of_mem b h2)

theorem runMin_const (target : SkyPosition) :
    ∀ (l : List SimpleTile) (b : SimpleTile),
      (∀ u ∈ l, ¬ (calculateAngularDistance target u.skyCoordinates <
        calculateAngularDistance target b.skyCoordinates)) →
      runMin target b l = b := by
  intro l
  induction l with
  | nil => intro b _; rfl
  | cons a l ih =>
    intro b h
    rw [runMin_cons, if_neg (h a (List.mem_cons_self a l))]
    exact ih b (fun u hu => h u (List.mem_cons_of_mem a hu))

theorem runMin_append (target : SkyPosition) (b : SimpleTile)
    (l1 l2 : List SimpleTile) :
    runMin target b (l1 ++ l2) = runMin target (runMin target b l1) l2 := by
  unfold runMin
  rw [List.foldl_append]

/-- Embedding of `EnhancedMosaicCreator::calculateTargetPixelPosition`
(src/EnhancedMosaicCreator.cpp lines 284 to 344): anchor on the
angularly-nearest tile, convert the angular offsets to pixels with the
1.61 arcsec-per-pixel scale and the declination cosine correction, then
clamp into the 1536x1536 raw mosaic. -/
noncomputable def calculateTargetPixelPosition (target : SkyPosition)
    (tiles : List SimpleTile) : ℤ × ℤ :=
  match findContainingTile target tiles with
  | none => (1536 / 2, 1536 / 2)
  | some containingTile =>
    let offsetRA_arcsec0 :=
      (target.ra_deg - containingTile.skyCoordinates.ra_deg) * 3600
    let offsetDec_arcsec :=
      (target.dec_deg - containingTile.skyCoordinates.dec_deg) * 3600
    let offsetRA_arcsec :=
      offsetRA_arcsec0 * Real.cos (target.dec_deg * Real.pi / 180)
    let offsetRA_pixels := offsetRA_arcsec / 1.61
    let offsetDec_pixels := -offsetDec_arcsec / 1.61
    let tilePixelX := containingTile.gridX * 512 + 256
    let tilePixelY := containingTile.gridY * 512 + 256
    let targetPixelX := tilePixelX + cround offsetRA_pixels
    let targetPixelY := tilePixelY + cround offsetDec_pixels
    (max 0 (min targetPixelX 1535), max 0 (min targetPixelY 1535))

end EnhancedMosaicCreator

namespace EnhancedMosaicCreator

open Dss

/-- Claim C3: whenever the containing-tile search succeeds — which it
does on every non-empty tile list — the anchor is a tile of minimal
haversine distance to the target among all tiles; the returned position
is the anchor tile's center (gridX*512+256, gridY*512+256) plus the
rounded pixel offsets (RA offset corrected by the cosine of the target
declination, declination offset negated, both scaled by 1.61 arcsec per
pixel), with each component clamped into [0,1535]; and when the target
equals the anchor tile's own center, the result is exactly the tile's
geometric center. -/
theorem claim_C3_target_pixel_formula (target : SkyPosition) (a : SimpleTile)
    (l : List SimpleTile) (t : SimpleTile)
    (h : findContainingTile target (a :: l) = some t) :
    t ∈ a :: l ∧
    (∀ u ∈ a :: l,
      calculateAngularDistance target t.skyCoordinates ≤
        calculateAngularDistance target u.skyCoordinates) ∧
    calculateTargetPixelPosition target (a :: l) =
      (max 0 (min (t.gridX * 512 + 256 +
         cround ((target.ra_deg - t.skyCoordinates.ra_deg) * 3600 *
           Real.cos (target.dec_deg * Real.pi / 180) / 1.61)) 1535),
       max 0 (min (t.gridY * 512 + 256 +
         cround (-((target.dec_deg - t.skyCoordinates.dec_deg) * 3600) / 1.61)) 1535)) ∧
    (target = t.skyCoordinates →
      0 ≤ t.gridX → t.gridX ≤ 2 → 0 ≤ t.gridY → t.gridY ≤ 2 →
      calculateTargetPixelPosition target (a :: l) =
        (t.gridX * 512 + 256, t.gridY * 512 + 256)) := by
  have ht : runMin target a l = t := by
    rw [findContainingTile_cons] at h
    exact Option.some.inj h
  have hformula : calculateTargetPixelPosition target (a :: l) =
      (max 0 (min (t.gridX * 512 + 256 +
         cround ((target.ra_deg - t.skyCoordinates.ra_deg) * 3600 *
           Real.cos (target.dec_deg * Real.pi / 180) / 1.61)) 1535),
       max 0 (min (t.gridY * 512 + 256 +
         cround (-((target.dec_deg - t.skyCoordinates.dec_deg) * 3600) / 1.61)) 1535)) := by
    simp only [calculateTargetPixelPosition, findContainingTile_cons, ht]
  refine ⟨?_, ?_, hformula, ?_⟩
  · rw [← ht]; exact runMin_mem target l a
  · intro u hu; rw [← ht]; exact runMin_le target l a u hu
  · intro heq hgx0 hgx2 hgy0 hgy2
    rw [hformula, heq]
    have hz1 : (t.skyCoordinates.ra_deg - t.skyCoordinates.ra_deg) * 3600 *
        Real.cos (t.skyCoordinates.dec_deg * Real.pi / 180) / 1.61 = 0 := by
      ring
    have hz2 : -((t.skyCoordinates.dec_deg - t.skyCoordinates.dec_deg) * 3600) / 1.61
        = 0 := by
      ring
    rw [hz1, hz2, cround_zero]
    simp only [Prod.mk.injEq, add_zero]
    constructor <;> omega

/-- A sample tile at the grid origin with its center at RA 0, Dec 0. -/
def tile0 : SimpleTile :=
  { gridX := 0, gridY := 0, healpixPixel := 0, filename := "", url := "",
    imageIsNull := false, downloaded := true,
    skyCoordinates := { ra_deg := 0, dec_deg := 0, name := "", description := "" } }

/-- Witness for claim C3: a single tile at the grid origin whose center
is the target itself; the computed pixel is the tile's geometric center
(256, 256). -/
theorem claim_C3_witness :
    findContainingTile tile0.skyCoordinates [tile0] = some tile0 ∧
    calculateTargetPixelPosition tile0.skyCoordinates [tile0] = (256, 256) := by
  have hanchor : findContainingTile tile0.skyCoordinates [tile0] = some tile0 := by
    rw [findContainingTile_cons]
    rfl
  have h := claim_C3_target_pixel_formula tile0.skyCoordinates tile0 [] tile0 hanchor
  have hs := h.2.2.2 rfl (by decide) (by decide) (by decide) (by decide)
  refine ⟨hanchor, ?_⟩
  rw [hs]
  decide

/-- Claim C10: with an empty tile list, `calculateTargetPixelPosition`
returns the geometric center (768, 768) of the 1536x1536 raw mosaic
rather than failing; and the anchor is the earliest minimal tile in grid
creation order: whenever every tile before t in the list is strictly
farther from the target and no tile anywhere is nearer than t, the
containing-tile search returns exactly t, so ties are broken in favour
of the earliest tile. -/
theorem claim_C10_empty_center_and_tie_break (target : SkyPosition) :
    calculateTargetPixelPosition target [] = (768, 768) ∧
    (∀ (l1 l2 : List SimpleTile) (t : SimpleTile),
      (∀ v ∈ l1, calculateAngularDistance target t.skyCoordinates <
        calculateAngularDistance target v.skyCoordinates) →
      (∀ u ∈ l1 ++ t :: l2, calculateAngularDistance target t.skyCoordinates ≤
        calculateAngularDistance target u.skyCoordinates) →
      findContainingTile target (l1 ++ t :: l2) = some t) := by
  constructor
  · rfl
  · intro l1 l2 t h1 h2
    cases l1 with
    | nil =>
      simp only [List.nil_append] at h2 ⊢
      rw [findContainingTile_cons]
      refine congrArg some (runMin_const target l2 t ?_)
      intro u hu
      exact not_lt.mpr (h2 u (List.mem_cons_of_mem t hu))
    | cons a l1' =>
      rw [List.cons_append, findContainingTile_cons, runMin_append]
      have hbmem : runMin target a l1' ∈ a :: l1' := runMin_mem target l1' a
      have hbt : calculateAngularDistance target t.skyCoordinates <
          calculateAngularDistance target (runMin target a l1').skyCoordinates :=
        h1 (runMin target a l1') hbmem
      rw [runMin_cons, if_pos hbt]
      refine congrArg some (runMin_const target l2 t ?_)
      intro u hu
      refine not_lt.mpr (h2 u ?_)
      rw [List.cons_append]
      exact List.mem_cons_of_mem a
        (List.mem_append_right l1' (List.mem_cons_of_mem t hu))

/-- Witness for claim C10: the empty list gives the geometric center, and
a singleton list anchors on its only tile. -/
theorem claim_C10_witness :
    calculateTargetPixelPosition tile0.skyCoordinates [] = (768, 768) ∧
    findContainingTile tile0.skyCoordinates [tile0] = some tile0 := by
  have h := claim_C10_empty_center_and_tie_break tile0.skyCoordinates
  refine ⟨h.1, ?_⟩
  have h2 := h.2 [] [] tile0
    (by intro v hv; exact absurd hv (List.not_mem_nil v))
    (by
      intro u hu
      simp only [List.nil_append, List.mem_singleton] at hu
      rw [hu])
  simpa using h2

end EnhancedMosaicCreator

namespace EnhancedMosaicCreator

open Dss

/-! ## Pixel-to-coordinate conversion and mosaic assembly -/

/-- Number of pixels of the spherical pixelization at an order:
12 * 4^order (equivalently 12 * nside^2 with nside = 2^order). -/
def npix (order : ℕ) : ℤ := 12 * 4 ^ order

/-- Embedding of `EnhancedMosaicCreator::healpixToSkyPosition`
(src/EnhancedMosaicCreator.cpp lines 385 to 408).  Modelled from the
spec: the call `Healpix_Base::pix2ang` belongs to the external HEALPix
library, whose sources are not part of the repository.  Per spec section
4.2 the conversion yields the defined error position exactly on pixel
values inconsistent with the order (outside 0..12*4^order-1), so the
library call is modelled as succeeding exactly on in-range pixels — the
pointing (theta, phi) returned for an in-range pixel is abstracted as an
oracle parameter — and as throwing otherwise, which the catch-all
handler of the source turns into the error position. -/
noncomputable def healpixToSkyPosition (pix2ang : ℕ → ℤ → ℝ × ℝ)
    (pixel : ℤ) (order : ℕ) : SkyPosition :=
  if 0 ≤ pixel ∧ pixel < npix order then
    let pt := pix2ang order pixel
    { ra_deg := pt.2 * 180 / Real.pi
      dec_deg := 90 - pt.1 * 180 / Real.pi
      name := "HEALPix_" ++ toString pixel
      description := "Order " ++ toString order ++ " pixel " ++ toString pixel }
  else
    { ra_deg := 0, dec_deg := 0, name := "Error",
      description := "HEALPix conversion failed" }

/-- Claim C8: for every pixel id inconsistent with the given order (below
0 or at least 12*4^order), the conversion returns the defined error
position with ra_deg = 0, dec_deg = 0 and name "Error"; no exception
reaches the caller (the embedded function is total). -/
theorem claim_C8_error_position (pix2ang : ℕ → ℤ → ℝ × ℝ)
    (pixel : ℤ) (order : ℕ) (h : pixel < 0 ∨ npix order ≤ pixel) :
    healpixToSkyPosition pix2ang pixel order =
      { ra_deg := 0, dec_deg := 0, name := "Error",
        description := "HEALPix conversion failed" } := by
  have hneg : ¬ (0 ≤ pixel ∧ pixel < npix order) := by
    rcases h with h | h
    · intro hcon; exact absurd hcon.1 (not_le.mpr h)
    · intro hcon; exact absurd hcon.2 (not_lt.mpr h)
  unfold healpixToSkyPosition
  rw [if_neg hneg]

/-- Witness for claim C8: pixel -1 is out of range at order 8 and yields
the error position, for any pointing oracle. -/
theorem claim_C8_witness :
    healpixToSkyPosition (fun _ _ => (0, 0)) (-1) 8 =
      { ra_deg := 0, dec_deg := 0, name := "Error",
        description := "HEALPix conversion failed" } :=
  claim_C8_error_position (fun _ _ => (0, 0)) (-1) 8 (Or.inl (by norm_num))

/-- Abstract raster image: only the dimensions are relevant to the
claims; pixel content is not modelled. -/
structure MosaicImage where
  width : ℤ
  height : ℤ
deriving DecidableEq

/-- The externally visible effects of one run of
`assembleFinalMosaicCentered`: the stored `m_fullMosaic` after the call,
the mosaic written to disk (if any), and whether the `mosaicComplete`
signal was emitted. -/
structure AssembleOutcome where
  fullMosaic : Option MosaicImage
  savedMosaic : Option MosaicImage
  completionSignaled : Bool
deriving DecidableEq

/-- The successful-tile count of `assembleFinalMosaicCentered`
(src/EnhancedMosaicCreator.cpp lines 184 to 189): tiles both downloaded
and holding a non-null image. -/
def successfulTiles (tiles : List SimpleTile) : ℕ :=
  (tiles.filter (fun t => t.downloaded && !t.imageIsNull)).length

/-- Embedding of `EnhancedMosaicCreator::assembleFinalMosaicCentered`
(src/EnhancedMosaicCreator.cpp lines 179 to 282), abstracted to the
effects visible to the claims.  With zero successful tiles the method
returns before producing, storing, saving or signaling anything;
otherwise it composes the 3*512 raw canvas (missing tiles leave their
cell blank), locates the target pixel, crops to center, stores the
result in `m_fullMosaic`, saves it, and emits `mosaicComplete`. -/
noncomputable def assembleFinalMosaicCentered (target : SkyPosition)
    (tiles : List SimpleTile) (fullMosaicBefore : Option MosaicImage) :
    AssembleOutcome :=
  if successfulTiles tiles = 0 then
    { fullMosaic := fullMosaicBefore, savedMosaic := none,
      completionSignaled := false }
  else
    let rawMosaicSize : ℤ := 3 * 512
    let targetPixel := calculateTargetPixelPosition target tiles
    let rect := cropMosaicToCenter rawMosaicSize rawMosaicSize
      targetPixel.1 targetPixel.2
    let centeredMosaic : MosaicImage := { width := rect.2.2, height := rect.2.2 }
    { fullMosaic := some centeredMosaic
      savedMosaic := some centeredMosaic
      completionSignaled := true }

/-- Claim C9: if zero of the tiles have valid downloaded image data,
assembly is abandoned — no mosaic is produced or saved, the stored last
mosaic is unchanged and no completion is signaled; if at least one tile
has valid data, a complete full-size (1200x1200) mosaic is produced,
stored, saved and signaled. -/
theorem claim_C9_zero_tile_abandon (target : SkyPosition)
    (tiles : List SimpleTile) (before : Option MosaicImage) :
    (successfulTiles tiles = 0 →
      assembleFinalMosaicCentered target tiles before =
        { fullMosaic := before, savedMosaic := none,
          completionSignaled := false }) ∧
    (0 < successfulTiles tiles →
      (assembleFinalMosaicCentered target tiles before).completionSignaled = true ∧
      (assembleFinalMosaicCentered target tiles before).savedMosaic =
        some { width := 1200, height := 1200 } ∧
      (assembleFinalMosaicCentered target tiles before).fullMosaic =
        some { width := 1200, height := 1200 }) := by
  constructor
  · intro h
    unfold assembleFinalMosaicCentered
    rw [if_pos h]
  · intro h
    have hne : ¬ successfulTiles tiles = 0 := Nat.pos_iff_ne_zero.mp h
    unfold assembleFinalMosaicCentered
    rw [if_neg hne]
    refine ⟨rfl, ?_, ?_⟩ <;> norm_num [cropMosaicToCenter, min_def]

/-- Witness for claim C9: the empty tile list has zero successful tiles
and leaves everything untouched; a single valid tile signals completion
of a stored 1200x1200 mosaic. -/
theorem claim_C9_witness :
    successfulTiles ([] : List SimpleTile) = 0 ∧
    assembleFinalMosaicCentered tile0.skyCoordinates [] none =
      { fullMosaic := none, savedMosaic := none, completionSignaled := false } ∧
    0 < successfulTiles [tile0] ∧
    (assembleFinalMosaicCentered tile0.skyCoordinates [tile0] none).completionSignaled
      = true :=
  ⟨rfl,
   (claim_C9_zero_tile_abandon tile0.skyCoordinates [] none).1 rfl,
   by decide,
   ((claim_C9_zero_tile_abandon tile0.skyCoordinates [tile0] none).2 (by decide)).1⟩

end EnhancedMosaicCreator
